import Mathlib

/-!
Verification of the Mirolab MindEase stress monitor (`stress_monitor.py`).

Shallow embedding of the telemetry stream processor:

* `findMarker` / `extractAll` / `notification_handler` — the per-channel
  frame reassembler (`BLEWorker.notification_handler`, lines 165–179);
* `process_long_packet` — the frame decoder
  (`BLEWorker.process_long_packet`, lines 181–194);
* `categorize_stress_5` — the pure categorizer (lines 66–78);
* `handle_new_data`, `update_signal_quality`, `update_interval`,
  `init_data_buffers` — the per-channel aggregator in `MyApp`.

Bytes are modelled as `Nat` (a Python `bytearray` element is 0–255; none of
the buffer logic depends on the bound).  Stress values are modelled as `ℚ`:
Python produces `float(100 - meditation_int)` (exact for these integers) and
interval means by `sum/len`, which we model with exact rational division.
-/

namespace StressMonitor

/-- The frame size `PACKET_SIZE = 36` (line 59). -/
def PACKET_SIZE : Nat := 36

/-- The 3-byte frame marker `b"\xAA\xAA\x20"` searched for at line 168. -/
def marker : List Nat := [0xAA, 0xAA, 0x20]

/-- Model of `buffer.find(b"\xAA\xAA\x20")` (line 169): index of the first occurrence
of the 3-byte marker as a contiguous substring, `none` when absent (Python
returns `-1`; `marker in buffer` at line 168 is `findMarker ≠ none`). -/
def findMarker : List Nat → Option Nat
  | [] => none
  | x :: rest =>
    if (x :: rest).take 3 = marker then some 0
    else (findMarker rest).map (fun j => j + 1)

/-- The `while` loop of `notification_handler` (lines 168–175): repeatedly
find the first marker; if at least `PACKET_SIZE` bytes are available from the
marker onward, emit `buffer[start : start+36]` and continue on
`buffer[start+36 :]`; otherwise stop.  Returns the emitted frames in order
together with the retained buffer.

The loop consumes at least 36 bytes of the buffer per iteration, so
`b.length` iterations always suffice; `extractLoop` is the loop body with an
explicit iteration bound and `extractAll` runs it with that sufficient bound
(`extractLoop_fuel_irrel` shows the bound is irrelevant once large enough). -/
def extractLoop : Nat → List Nat → List (List Nat) × List Nat
  | 0, b => ([], b)
  | fuel + 1, b =>
    match findMarker b with
    | none => ([], b)
    | some start_index =>
      if start_index + PACKET_SIZE ≤ b.length then
        let packet := (b.drop start_index).take PACKET_SIZE
        let p := extractLoop fuel (b.drop (start_index + PACKET_SIZE))
        (packet :: p.1, p.2)
      else ([], b)

/-- Frame extraction on a whole buffer: the `while` loop of lines 168–175 run
to completion. -/
def extractAll (b : List Nat) : List (List Nat) × List Nat :=
  extractLoop b.length b

/-- The two per-channel reassembly buffers of `BLEWorker`
(`self.buffer_left` / `self.buffer_right`, lines 130–131). -/
structure WorkerState where
  buffer_left : List Nat
  buffer_right : List Nat
deriving Repr, DecidableEq

/-- Model of `BLEWorker.notification_handler` (lines 165–179): select the channel's
buffer, append the chunk, run the extraction loop, store back the retained
buffer.  Returns the new state and the frames passed to
`process_long_packet`, in emission order. -/
def notification_handler (st : WorkerState) (data : List Nat)
    (channel : String) : WorkerState × List (List Nat) :=
  let buffer := if channel = "left" then st.buffer_left else st.buffer_right
  let r := extractAll (buffer ++ data)
  (if channel = "left" then { st with buffer_left := r.2 }
   else { st with buffer_right := r.2 }, r.1)

/-- Feeding a sequence of chunks to `notification_handler` on one channel,
collecting all emitted frames in order. -/
def runHandler (st : WorkerState) (channel : String) :
    List (List Nat) → WorkerState × List (List Nat)
  | [] => (st, [])
  | c :: cs =>
    let r := notification_handler st c channel
    let r' := runHandler r.1 channel cs
    (r'.1, r.2 ++ r'.2)

/-- The decoded-sample event emitted by `data_received.emit(channel,
float(stress_int), float(attention_int), signal_quality_int)` (line 194). -/
structure DecodedSample where
  channel : String
  stressValue : ℚ
  attentionValue : ℚ
  signalQuality : Nat
deriving Repr, DecidableEq

/-- Model of `BLEWorker.process_long_packet` (lines 181–194).  The Python body hex-
encodes every byte (`f"{byte:02X}"`, an exact round trip through
`int(·, 16)`) and reads `hex_values[32]`, `hex_values[34]`,
`hex_values[4]`; an `IndexError` is caught and the sample dropped, which
happens exactly when the packet has fewer than 35 bytes (index 34 out of
range).  Otherwise it emits `(channel, 100 - meditation, attention,
signal_quality)`. -/
def process_long_packet (packet : List Nat) (channel : String) :
    Option DecodedSample :=
  if 35 ≤ packet.length then
    some { channel := channel
           stressValue := (100 : ℚ) - packet.getD 32 0
           attentionValue := packet.getD 34 0
           signalQuality := packet.getD 4 0 }
  else none

/-- Model of `categorize_stress_5` (lines 66–78); `none` models Python `None`. -/
def categorize_stress_5 (value : Option ℚ) : String :=
  match value with
  | none => "No Data"
  | some v =>
    if v < 20 then "Very Low"
    else if v < 40 then "Low"
    else if v < 60 then "Moderate"
    else if v < 80 then "High"
    else "Very High"

/-- Appending to a `collections.deque` with `maxlen` `m`: when full, the oldest
(leftmost) elements are evicted so that at most `m` remain. -/
def dequeAppend (m : Nat) (xs : List ℚ) (x : ℚ) : List ℚ :=
  if m < (xs ++ [x]).length then (xs ++ [x]).drop ((xs ++ [x]).length - m)
  else xs ++ [x]

/-- The aggregation state of `MyApp`: the two continuous moving windows
(`deque(maxlen=15)`), the two interval accumulators (plain lists), the two
interval histories (`deque(maxlen=5)`) — `init_data_buffers`, lines 211–217 —
and the text of the two signal-quality labels. -/
structure AppState where
  stress_values_left : List ℚ
  stress_values_right : List ℚ
  interval_stress_buffer_left : List ℚ
  interval_stress_buffer_right : List ℚ
  interval_stress_left : List ℚ
  interval_stress_right : List ℚ
  signal_quality_label_left : String
  signal_quality_label_right : String
deriving Repr, DecidableEq

/-- Model of `MyApp.init_data_buffers` (lines 211–217), together with the initial
label text set by `setup_signal_label` (line 278). -/
def init_data_buffers : AppState :=
  { stress_values_left := []
    stress_values_right := []
    interval_stress_buffer_left := []
    interval_stress_buffer_right := []
    interval_stress_left := []
    interval_stress_right := []
    signal_quality_label_left := "Left Signal Quality: Unknown"
    signal_quality_label_right := "Right Signal Quality: Unknown" }

/-- Model of `MyApp.update_signal_quality` (lines 367–376): the label text written for
a given quality value (the style sheet is display-only and not modelled). -/
def update_signal_quality (quality : Nat) (side : String) : String :=
  if quality = 0 then side ++ " Signal Quality: Good"
  else if 1 ≤ quality ∧ quality ≤ 50 then
    side ++ " Signal Quality: Poor (" ++ toString quality ++ ")"
  else side ++ " Signal Quality: Very Poor (" ++ toString quality ++ ")"

/-- Model of `MyApp.handle_new_data` (lines 354–365): always update the channel's
signal-quality label; append the stress value to the moving window and the
interval accumulator only when `signal_quality == 0`.  (`attention` is
received but unused, as in the source.) -/
def handle_new_data (st : AppState) (channel : String) (stress : ℚ)
    (attention : ℚ) (signal_quality : Nat) : AppState :=
  if channel = "left" then
    let st := { st with
      signal_quality_label_left := update_signal_quality signal_quality "Left" }
    if signal_quality = 0 then
      { st with
        stress_values_left := dequeAppend 15 st.stress_values_left stress
        interval_stress_buffer_left := st.interval_stress_buffer_left ++ [stress] }
    else st
  else
    let st := { st with
      signal_quality_label_right := update_signal_quality signal_quality "Right" }
    if signal_quality = 0 then
      { st with
        stress_values_right := dequeAppend 15 st.stress_values_right stress
        interval_stress_buffer_right := st.interval_stress_buffer_right ++ [stress] }
    else st

/-- Model of `MyApp.update_interval` (lines 300–311): for each channel, if the
interval accumulator is non-empty, append its arithmetic mean (`sum/len`) to
the interval history and clear the accumulator.  Besides the new state we
return the two means that were appended this call (`avg_left` / `avg_right`
as computed in the body; `none` when the channel's branch was not taken) —
this is the rollup result the specification's `rollup()` contract speaks of. -/
def update_interval (st : AppState) : AppState × Option ℚ × Option ℚ :=
  let rl :=
    if st.interval_stress_buffer_left ≠ [] then
      let avg_left := st.interval_stress_buffer_left.sum /
        st.interval_stress_buffer_left.length
      ({ st with
          interval_stress_left := dequeAppend 5 st.interval_stress_left avg_left
          interval_stress_buffer_left := [] }, some avg_left)
    else (st, none)
  let st1 := rl.1
  let rr :=
    if st1.interval_stress_buffer_right ≠ [] then
      let avg_right := st1.interval_stress_buffer_right.sum /
        st1.interval_stress_buffer_right.length
      ({ st1 with
          interval_stress_right := dequeAppend 5 st1.interval_stress_right avg_right
          interval_stress_buffer_right := [] }, some avg_right)
    else (st1, none)
  (rr.1, rl.2, rr.2)

/-- The events that mutate the aggregation state: a decoded sample delivered
to `handle_new_data`, or a tick of the 10-second interval timer invoking
`update_interval`. -/
inductive AppEvent where
  | data (channel : String) (stress attention : ℚ) (signal_quality : Nat)
  | interval
deriving Repr, DecidableEq

/-- One event applied to the aggregation state. -/
def stepApp (st : AppState) : AppEvent → AppState
  | .data ch s a q => handle_new_data st ch s a q
  | .interval => (update_interval st).1

/-- A sequence of events applied in order. -/
def runApp (st : AppState) : List AppEvent → AppState
  | [] => st
  | e :: es => runApp (stepApp st e) es

/-- The bounded-capacity invariant of §8: moving windows hold at most 15
values, interval histories at most 5. -/
def capInv (st : AppState) : Prop :=
  st.stress_values_left.length ≤ 15 ∧ st.stress_values_right.length ≤ 15 ∧
  st.interval_stress_left.length ≤ 5 ∧ st.interval_stress_right.length ≤ 5

instance (st : AppState) : Decidable (capInv st) := by
  unfold capInv; infer_instance

/-- The scenario frame of §8: marker, `0x00` at offset 4, zeros elsewhere,
`0x1E` at offset 32 and `0x0A` at offset 34, padded to 36 bytes. -/
def scenarioFrame : List Nat :=
  [0xAA, 0xAA, 0x20, 0, 0] ++ List.replicate 27 0 ++ [0x1E, 0, 0x0A, 0]

/-! Basic lemmas about the marker search and the extraction loop. -/

/-- A found marker fits in the buffer: the 3 marker bytes lie inside it. -/
theorem findMarker_some_bound :
    ∀ {b : List Nat} {i : Nat}, findMarker b = some i → i + 3 ≤ b.length := by
  intro b
  induction b with
  | nil => intro i h; simp [findMarker] at h
  | cons x rest ih =>
    intro i h
    simp only [findMarker] at h
    split at h
    · next heq =>
      have hlen : ((x :: rest).take 3).length = marker.length := by rw [heq]
      have hm : marker.length = 3 := by decide
      rw [List.length_take, hm] at hlen
      have h3 : 3 ≤ (x :: rest).length := min_eq_left_iff.mp hlen
      have := Option.some.inj h
      omega
    · obtain ⟨j, hj, rfl⟩ := Option.map_eq_some'.mp h
      have := ih hj
      simp only [List.length_cons]
      omega

/-- The first marker position is unchanged by appending bytes on the right. -/
theorem findMarker_append {b : List Nat} {i : Nat} (d : List Nat)
    (h : findMarker b = some i) : findMarker (b ++ d) = some i := by
  induction b generalizing i with
  | nil => simp [findMarker] at h
  | cons x rest ih =>
    have h3 : 3 ≤ (x :: rest).length := by
      cases hm : findMarker (x :: rest) with
      | none => rw [hm] at h; cases h
      | some k => have := findMarker_some_bound hm; omega
    have htake : ((x :: rest) ++ d).take 3 = (x :: rest).take 3 :=
      List.take_append_of_le_length h3
    simp only [findMarker] at h
    have hxd : (x :: rest) ++ d = x :: (rest ++ d) := rfl
    rw [hxd] at htake
    simp only [findMarker, List.append_eq]
    rw [htake]
    split at h
    · next heq =>
      rw [if_pos heq]
      exact h
    · next hne =>
      obtain ⟨j, hj, rfl⟩ := Option.map_eq_some'.mp h
      rw [if_neg hne, ih hj]
      rfl

/-- The iteration bound of `extractLoop` is irrelevant once it is at least
the buffer length: the loop always terminates on its own before then. -/
theorem extractLoop_fuel_irrel :
    ∀ (f f' : Nat) (b : List Nat), b.length ≤ f → b.length ≤ f' →
      extractLoop f b = extractLoop f' b := by
  intro f
  induction f with
  | zero =>
    intro f' b hf hf'
    have : b = [] := List.length_eq_zero.mp (Nat.le_zero.mp hf)
    subst this
    cases f' with
    | zero => rfl
    | succ n => simp [extractLoop, findMarker]
  | succ f ih =>
    intro f' b hf hf'
    cases f' with
    | zero =>
      have : b = [] := List.length_eq_zero.mp (Nat.le_zero.mp hf')
      subst this
      simp [extractLoop, findMarker]
    | succ f' =>
      simp only [extractLoop]
      cases hm : findMarker b with
      | none => rfl
      | some i =>
        simp only
        split
        · next hlen =>
          have hdrop : (b.drop (i + PACKET_SIZE)).length = b.length - (i + PACKET_SIZE) :=
            List.length_drop _ _
          have h36 : PACKET_SIZE = 36 := rfl
          rw [ih f' (b.drop (i + PACKET_SIZE)) (by omega) (by omega)]
        · rfl

/-- Unfolding equation for `extractAll`: one iteration of the `while` loop of
lines 168–175. -/
theorem extractAll_eq (b : List Nat) :
    extractAll b =
      match findMarker b with
      | none => ([], b)
      | some i =>
        if i + PACKET_SIZE ≤ b.length then
          (((b.drop i).take PACKET_SIZE) :: (extractAll (b.drop (i + PACKET_SIZE))).1,
           (extractAll (b.drop (i + PACKET_SIZE))).2)
        else ([], b) := by
  unfold extractAll
  cases hl : b.length with
  | zero =>
    have : b = [] := List.length_eq_zero.mp hl
    subst this
    simp [extractLoop, findMarker]
  | succ n =>
    simp only [extractLoop]
    cases hm : findMarker b with
    | none => rfl
    | some i =>
      simp only
      split
      · next hlen =>
        have hdrop : (b.drop (i + PACKET_SIZE)).length = b.length - (i + PACKET_SIZE) :=
          List.length_drop _ _
        have h36 : PACKET_SIZE = 36 := rfl
        rw [if_pos (show i + PACKET_SIZE ≤ n + 1 by omega)]
        rw [extractLoop_fuel_irrel n (b.drop (i + PACKET_SIZE)).length
          (b.drop (i + PACKET_SIZE)) (by omega) (by omega)]
      · next hlen =>
        rw [if_neg (show ¬ i + PACKET_SIZE ≤ n + 1 by omega)]

/-- The empty buffer extracts nothing. -/
theorem extractAll_nil : extractAll [] = ([], []) := rfl

/-- Evaluation of `extractAll` when no marker occurs: nothing emitted, buffer retained. -/
theorem extractAll_eq_none {b : List Nat} (h : findMarker b = none) :
    extractAll b = ([], b) := by
  rw [extractAll_eq, h]

/-- Evaluation of `extractAll` when the first marker has a full frame after it. -/
theorem extractAll_eq_some_lt {b : List Nat} {i : Nat}
    (h : findMarker b = some i) (hlen : i + PACKET_SIZE ≤ b.length) :
    extractAll b =
      (((b.drop i).take PACKET_SIZE) :: (extractAll (b.drop (i + PACKET_SIZE))).1,
       (extractAll (b.drop (i + PACKET_SIZE))).2) := by
  rw [extractAll_eq, h]
  simp [hlen]

/-- Evaluation of `extractAll` when the first marker lacks a full frame after it:
nothing emitted, buffer retained. -/
theorem extractAll_eq_some_ge {b : List Nat} {i : Nat}
    (h : findMarker b = some i) (hlen : ¬ i + PACKET_SIZE ≤ b.length) :
    extractAll b = ([], b) := by
  rw [extractAll_eq, h]
  simp [hlen]

/-- Bounded-induction form of the key confluence fact: extracting from
`b ++ d` first exhausts `b` exactly as extracting from `b` alone would, then
continues on the retained buffer with `d` appended. -/
theorem extractAll_append_aux :
    ∀ (n : Nat) (b d : List Nat), b.length ≤ n →
      extractAll (b ++ d) =
        ((extractAll b).1 ++ (extractAll ((extractAll b).2 ++ d)).1,
         (extractAll ((extractAll b).2 ++ d)).2) := by
  intro n
  induction n with
  | zero =>
    intro b d hb
    have hbn : b = [] := List.length_eq_zero.mp (Nat.le_zero.mp hb)
    subst hbn
    simp [extractAll_nil]
  | succ n ih =>
    intro b d hb
    cases hm : findMarker b with
    | none =>
      rw [extractAll_eq_none hm]
      simp
    | some i =>
      by_cases hlen : i + PACKET_SIZE ≤ b.length
      · have hi3 := findMarker_some_bound hm
        have h36 : PACKET_SIZE = 36 := rfl
        have h1 := extractAll_eq_some_lt hm hlen
        have hm2 : findMarker (b ++ d) = some i := findMarker_append d hm
        have hlen2 : i + PACKET_SIZE ≤ (b ++ d).length := by
          rw [List.length_append]; omega
        have h2 := extractAll_eq_some_lt hm2 hlen2
        have hdrop1 : (b ++ d).drop i = b.drop i ++ d :=
          List.drop_append_of_le_length (by omega)
        have htake1 : (b.drop i ++ d).take PACKET_SIZE = (b.drop i).take PACKET_SIZE := by
          apply List.take_append_of_le_length
          rw [List.length_drop]; omega
        have hdrop2 : (b ++ d).drop (i + PACKET_SIZE) = b.drop (i + PACKET_SIZE) ++ d :=
          List.drop_append_of_le_length (by omega)
        rw [hdrop1, htake1, hdrop2] at h2
        have hblen : (b.drop (i + PACKET_SIZE)).length ≤ n := by
          rw [List.length_drop]; omega
        rw [h1, h2, ih (b.drop (i + PACKET_SIZE)) d hblen]
        simp
      · rw [extractAll_eq_some_ge hm hlen]
        simp

/-- Confluence of the extraction loop with buffer append: processing
`b ++ d` emits the frames of `b` followed by the frames obtained by
continuing on `b`'s retained buffer with `d` appended. -/
theorem extractAll_append (b d : List Nat) :
    extractAll (b ++ d) =
      ((extractAll b).1 ++ (extractAll ((extractAll b).2 ++ d)).1,
       (extractAll ((extractAll b).2 ++ d)).2) :=
  extractAll_append_aux b.length b d le_rfl

/-- The buffer retained by the extraction loop is quiescent: running the
loop on it again emits nothing. -/
theorem extractAll_rest :
    ∀ (n : Nat) (b : List Nat), b.length ≤ n →
      extractAll (extractAll b).2 = ([], (extractAll b).2) := by
  intro n
  induction n with
  | zero =>
    intro b hb
    have hbn : b = [] := List.length_eq_zero.mp (Nat.le_zero.mp hb)
    subst hbn
    simp [extractAll_nil]
  | succ n ih =>
    intro b hb
    cases hm : findMarker b with
    | none =>
      rw [extractAll_eq_none hm]
      exact extractAll_eq_none hm
    | some i =>
      by_cases hlen : i + PACKET_SIZE ≤ b.length
      · have h36 : PACKET_SIZE = 36 := rfl
        rw [extractAll_eq_some_lt hm hlen]
        exact ih (b.drop (i + PACKET_SIZE)) (by rw [List.length_drop]; omega)
      · rw [extractAll_eq_some_ge hm hlen]
        exact extractAll_eq_some_ge hm hlen

/-- Feeding chunks one by one on the left channel equals one run of the
extraction loop over the concatenation, provided the starting left buffer is
quiescent (as the empty initial buffer is). -/
theorem runHandler_left :
    ∀ (chunks : List (List Nat)) (bl br : List Nat),
      extractAll bl = ([], bl) →
      runHandler ⟨bl, br⟩ "left" chunks =
        (⟨(extractAll (bl ++ chunks.flatten)).2, br⟩,
         (extractAll (bl ++ chunks.flatten)).1) := by
  intro chunks
  induction chunks with
  | nil =>
    intro bl br hq
    simp [runHandler, hq]
  | cons c cs ih =>
    intro bl br hq
    have hstep : notification_handler ⟨bl, br⟩ c "left" =
        (⟨(extractAll (bl ++ c)).2, br⟩, (extractAll (bl ++ c)).1) := by
      simp [notification_handler]
    have hq' : extractAll (extractAll (bl ++ c)).2 = ([], (extractAll (bl ++ c)).2) :=
      extractAll_rest (bl ++ c).length (bl ++ c) le_rfl
    have happ := extractAll_append (bl ++ c) cs.flatten
    simp only [runHandler, hstep]
    rw [ih (extractAll (bl ++ c)).2 br hq']
    simp only [List.flatten_cons, ← List.append_assoc]
    rw [happ]

/-- A buffer beginning with the marker has its first marker at index 0. -/
theorem findMarker_of_take {b : List Nat} (h : b.take 3 = marker) :
    findMarker b = some 0 := by
  cases b with
  | nil => simp [marker] at h
  | cons x rest => simp [findMarker, h]

/-- A full frame at the head of the buffer is extracted whole, and
extraction continues on the remainder. -/
theorem extractAll_frame_cons {f rest : List Nat} (hlen : f.length = PACKET_SIZE)
    (hmk : f.take 3 = marker) :
    extractAll (f ++ rest) =
      (f :: (extractAll rest).1, (extractAll rest).2) := by
  have h36 : PACKET_SIZE = 36 := rfl
  have hm : findMarker (f ++ rest) = some 0 := by
    apply findMarker_of_take
    rw [List.take_append_of_le_length (by omega), hmk]
  have hl : 0 + PACKET_SIZE ≤ (f ++ rest).length := by
    rw [List.length_append]; omega
  rw [extractAll_eq_some_lt hm hl]
  have hdrop0 : (f ++ rest).drop 0 = f ++ rest := List.drop_zero _
  have htake : (f ++ rest).take PACKET_SIZE = f := by
    rw [List.take_append_of_le_length (by omega), ← hlen, List.take_length]
  have hdrop : (f ++ rest).drop (0 + PACKET_SIZE) = rest := by
    rw [Nat.zero_add, List.drop_append_of_le_length (by omega), ← hlen,
      List.drop_length, List.nil_append]
  rw [hdrop0, htake, hdrop]

/-- No marker ever occurs in a run of zero bytes. -/
theorem findMarker_replicate_zero : ∀ n, findMarker (List.replicate n 0) = none := by
  intro n
  induction n with
  | zero => rfl
  | succ n ih =>
    rw [List.replicate_succ]
    simp only [findMarker]
    rw [if_neg, ih]
    · rfl
    · intro h
      rw [List.take_succ_cons] at h
      simp [marker] at h

/-- Flattening `n` copies of a one-byte chunk. -/
theorem flatten_replicate_single :
    ∀ n, (List.replicate n ([0] : List Nat)).flatten = List.replicate n 0 := by
  intro n
  induction n with
  | zero => rfl
  | succ n ih => rw [List.replicate_succ, List.flatten_cons, ih, List.replicate_succ]; rfl

/-- C1: feeding a byte stream on one channel to `notification_handler` in
arbitrary chunks emits exactly the same frame sequence, in left-to-right
buffer order, as feeding the whole stream as one contiguous chunk; and a
single chunk holding two consecutive frames yields exactly those two frames,
in order. -/
theorem C1_chunk_boundary_independent :
    (∀ chunks : List (List Nat),
      (runHandler ⟨[], []⟩ "left" chunks).2 =
        (runHandler ⟨[], []⟩ "left" [chunks.flatten]).2) ∧
    (∀ f1 f2 : List Nat, f1.length = PACKET_SIZE → f2.length = PACKET_SIZE →
      f1.take 3 = marker → f2.take 3 = marker →
      (runHandler ⟨[], []⟩ "left" [f1 ++ f2]).2 = [f1, f2]) := by
  have hq : extractAll ([] : List Nat) = ([], []) := extractAll_nil
  constructor
  · intro chunks
    rw [runHandler_left chunks [] [] hq, runHandler_left [chunks.flatten] [] [] hq]
    simp
  · intro f1 f2 h1 h2 hm1 hm2
    rw [runHandler_left [f1 ++ f2] [] [] hq]
    simp only [List.flatten_cons, List.flatten_nil, List.append_nil, List.nil_append]
    have hf2 : extractAll f2 = ([f2], []) := by
      have h := @extractAll_frame_cons f2 [] h2 hm2
      rw [List.append_nil, extractAll_nil] at h
      exact h
    rw [extractAll_frame_cons h1 hm1, hf2]

/-- Witness for C1 at a concrete input: the §8 scenario frame delivered
twice in a single chunk is emitted as exactly those two frames. -/
theorem C1_witness :
    (runHandler ⟨[], []⟩ "left" [scenarioFrame ++ scenarioFrame]).2 =
      [scenarioFrame, scenarioFrame] :=
  C1_chunk_boundary_independent.2 scenarioFrame scenarioFrame
    (by decide) (by decide) (by decide) (by decide)

/-- Auxiliary for C9: every emitted byte comes from the buffer, in order and
at most once — the emitted frames joined with the retained buffer form a
sublist of the input buffer. -/
theorem extractAll_sublist :
    ∀ (n : Nat) (b : List Nat), b.length ≤ n →
      List.Sublist ((extractAll b).1.flatten ++ (extractAll b).2) b := by
  intro n
  induction n with
  | zero =>
    intro b hb
    have hbn : b = [] := List.length_eq_zero.mp (Nat.le_zero.mp hb)
    subst hbn
    simp [extractAll_nil]
  | succ n ih =>
    intro b hb
    cases hm : findMarker b with
    | none =>
      rw [extractAll_eq_none hm]
      simp
    | some i =>
      by_cases hlen : i + PACKET_SIZE ≤ b.length
      · have h36 : PACKET_SIZE = 36 := rfl
        rw [extractAll_eq_some_lt hm hlen]
        have ihb := ih (b.drop (i + PACKET_SIZE)) (by rw [List.length_drop]; omega)
        have hpk : (b.drop i).take PACKET_SIZE = (b.take (i + PACKET_SIZE)).drop i := by
          rw [List.drop_take]
          congr 1
          omega
        have hsub1 : List.Sublist ((b.drop i).take PACKET_SIZE) (b.take (i + PACKET_SIZE)) := by
          rw [hpk]
          exact List.drop_sublist i (b.take (i + PACKET_SIZE))
        have := List.Sublist.append hsub1 ihb
        rw [List.take_append_drop (i + PACKET_SIZE) b] at this
        simpa [List.append_assoc] using this
      · rw [extractAll_eq_some_ge hm hlen]
        simp

/-- Auxiliary for C9: every emitted frame is exactly `PACKET_SIZE` bytes. -/
theorem extractAll_frame_length :
    ∀ (n : Nat) (b : List Nat), b.length ≤ n →
      ∀ f, f ∈ (extractAll b).1 → f.length = PACKET_SIZE := by
  intro n
  induction n with
  | zero =>
    intro b hb f hf
    have hbn : b = [] := List.length_eq_zero.mp (Nat.le_zero.mp hb)
    subst hbn
    rw [extractAll_nil] at hf
    simp at hf
  | succ n ih =>
    intro b hb f hf
    cases hm : findMarker b with
    | none =>
      rw [extractAll_eq_none hm] at hf
      simp at hf
    | some i =>
      by_cases hlen : i + PACKET_SIZE ≤ b.length
      · have h36 : PACKET_SIZE = 36 := rfl
        rw [extractAll_eq_some_lt hm hlen] at hf
        rcases List.mem_cons.mp hf with hf | hf
        · subst hf
          rw [List.length_take, List.length_drop]
          omega
        · exact ih (b.drop (i + PACKET_SIZE)) (by rw [List.length_drop]; omega) f hf
      · rw [extractAll_eq_some_ge hm hlen] at hf
        simp at hf

/-- C9: the reassembler never emits a frame from fewer than `PACKET_SIZE`
bytes past the marker (such a buffer is retained unchanged and yields zero
frames), every emitted frame is exactly 36 bytes, and no buffer byte appears
in two emitted frames: the emitted frames followed by the retained buffer
form a sublist of the buffer, so each byte is consumed at most once. -/
theorem C9_no_partial_frame_no_duplicate_bytes :
    (∀ (b : List Nat) (i : Nat), findMarker b = some i →
      b.length < i + PACKET_SIZE → extractAll b = ([], b)) ∧
    (∀ b : List Nat, ∀ f ∈ (extractAll b).1, f.length = PACKET_SIZE) ∧
    (∀ b : List Nat,
      List.Sublist ((extractAll b).1.flatten ++ (extractAll b).2) b) := by
  refine ⟨fun b i hm hlt => extractAll_eq_some_ge hm (by omega), ?_, ?_⟩
  · exact fun b f hf => extractAll_frame_length b.length b le_rfl f hf
  · exact fun b => extractAll_sublist b.length b le_rfl

/-- Witness for C9 at a concrete input: a chunk holding the marker followed
by only two more bytes yields zero frames and is retained whole. -/
theorem C9_witness :
    extractAll [0xAA, 0xAA, 0x20, 7, 7] = ([], [0xAA, 0xAA, 0x20, 7, 7]) :=
  C9_no_partial_frame_no_duplicate_bytes.1 [0xAA, 0xAA, 0x20, 7, 7] 0
    (by decide) (by decide)

/-- C3 (code bug): the source never bounds the retained buffer — `n`
marker-free chunks leave a retained buffer of exactly `n` bytes, for every
`n`, with no frames emitted, so no fixed cap on retained garbage exists. -/
theorem C3_retained_garbage_unbounded (n : Nat) :
    (runHandler ⟨[], []⟩ "left" (List.replicate n [0])).1.buffer_left =
        List.replicate n 0 ∧
    ((runHandler ⟨[], []⟩ "left" (List.replicate n [0])).1.buffer_left).length = n ∧
    (runHandler ⟨[], []⟩ "left" (List.replicate n [0])).2 = [] := by
  rw [runHandler_left (List.replicate n [0]) [] [] extractAll_nil]
  rw [List.nil_append, flatten_replicate_single n,
    extractAll_eq_none (findMarker_replicate_zero n)]
  simp

/-! Decoder and categorizer claims. -/

/-- C2 counterexample: a 35-byte packet is not 36 bytes long, yet
`process_long_packet` decodes it successfully (offsets 4, 32 and 34 all
exist), so "fails iff the frame length is not exactly 36" is false of the
code. -/
theorem C2_counterexample :
    (List.replicate 35 0).length ≠ 36 ∧
    process_long_packet (List.replicate 35 0) "left" =
      some { channel := "left", stressValue := 100, attentionValue := 0,
             signalQuality := 0 } := by
  constructor
  · decide
  · have e32 : (List.replicate 35 0).getD 32 0 = 0 := by decide
    have e34 : (List.replicate 35 0).getD 34 0 = 0 := by decide
    have e4 : (List.replicate 35 0).getD 4 0 = 0 := by decide
    rw [process_long_packet, if_pos (by decide), e32, e34, e4]
    norm_num

/-- C2 amended: the decoder drops the sample (logging a decode error) iff
the packet has fewer than 35 bytes, i.e. iff one of the accessed offsets
4, 32, 34 is out of range; in particular every 36-byte frame decodes
successfully. -/
theorem C2_decode_error_iff_short (packet : List Nat) (channel : String) :
    (process_long_packet packet channel = none ↔ packet.length < 35) ∧
    (packet.length = PACKET_SIZE → process_long_packet packet channel ≠ none) := by
  have h36 : PACKET_SIZE = 36 := rfl
  constructor
  · by_cases h : 35 ≤ packet.length
    · rw [process_long_packet, if_pos h]
      simp
      omega
    · rw [process_long_packet, if_neg h]
      simp
      omega
  · intro hl
    rw [process_long_packet, if_pos (by omega)]
    simp

/-- Witness for C2's amended theorem: the §8 scenario frame (36 bytes)
decodes successfully. -/
theorem C2_witness : process_long_packet scenarioFrame "left" ≠ none :=
  (C2_decode_error_iff_short scenarioFrame "left").2 (by decide)

/-- C6: every 36-byte frame decodes to signalQuality = byte 4,
attentionValue = byte 34 and stressValue = 100 − byte 32, with no clamping
(the stress value is negative whenever byte 32 exceeds 100); the §8 scenario
frame decodes to stress 70, attention 10, quality 0, and 70 categorizes as
"High". -/
theorem C6_decoder_fields (p : List Nat) (ch : String)
    (h : p.length = PACKET_SIZE) :
    process_long_packet p ch =
      some { channel := ch, stressValue := (100 : ℚ) - p.getD 32 0,
             attentionValue := p.getD 34 0, signalQuality := p.getD 4 0 } ∧
    (100 < p.getD 32 0 → (100 : ℚ) - p.getD 32 0 < 0) ∧
    process_long_packet scenarioFrame ch =
      some { channel := ch, stressValue := 70, attentionValue := 10,
             signalQuality := 0 } ∧
    categorize_stress_5 (some 70) = "High" := by
  have h36 : PACKET_SIZE = 36 := rfl
  have hgen : ∀ q : List Nat, 35 ≤ q.length →
      process_long_packet q ch =
        some { channel := ch, stressValue := (100 : ℚ) - q.getD 32 0,
               attentionValue := q.getD 34 0, signalQuality := q.getD 4 0 } := by
    intro q hq
    rw [process_long_packet, if_pos hq]
  refine ⟨hgen p (by omega), ?_, ?_, ?_⟩
  · intro hgt
    have : (100 : ℚ) < (p.getD 32 0 : ℚ) := by exact_mod_cast hgt
    linarith
  · have hs := hgen scenarioFrame (by decide)
    have e32 : scenarioFrame.getD 32 0 = 30 := by decide
    have e34 : scenarioFrame.getD 34 0 = 10 := by decide
    have e4 : scenarioFrame.getD 4 0 = 0 := by decide
    rw [hs, e32, e34, e4]
    norm_num
  · rfl

/-- Witness for C6 at the §8 scenario frame. -/
theorem C6_witness :
    process_long_packet scenarioFrame "left" =
      some { channel := "left", stressValue := (100 : ℚ) - scenarioFrame.getD 32 0,
             attentionValue := scenarioFrame.getD 34 0,
             signalQuality := scenarioFrame.getD 4 0 } :=
  (C6_decoder_fields scenarioFrame "left" (by decide)).1

/-- C7: `categorize_stress_5` maps `None` to "No Data" and otherwise uses
the half-open bins [−∞,20) / [20,40) / [40,60) / [60,80) / [80,∞) with no
clamping, so negatives land in "Very Low" and values above 100 in
"Very High". -/
theorem C7_categorize_bins :
    categorize_stress_5 none = "No Data" ∧
    (∀ v : ℚ, v < 20 → categorize_stress_5 (some v) = "Very Low") ∧
    (∀ v : ℚ, 20 ≤ v → v < 40 → categorize_stress_5 (some v) = "Low") ∧
    (∀ v : ℚ, 40 ≤ v → v < 60 → categorize_stress_5 (some v) = "Moderate") ∧
    (∀ v : ℚ, 60 ≤ v → v < 80 → categorize_stress_5 (some v) = "High") ∧
    (∀ v : ℚ, 80 ≤ v → categorize_stress_5 (some v) = "Very High") ∧
    (∀ v : ℚ, v < 0 → categorize_stress_5 (some v) = "Very Low") ∧
    (∀ v : ℚ, 100 < v → categorize_stress_5 (some v) = "Very High") := by
  refine ⟨rfl, ?_, ?_, ?_, ?_, ?_, ?_, ?_⟩ <;>
    · intro v
      intros
      simp only [categorize_stress_5]
      split_ifs <;> first | rfl | linarith

/-- Witness for C7: 70 falls in the "High" bin. -/
theorem C7_witness : categorize_stress_5 (some 70) = "High" :=
  C7_categorize_bins.2.2.2.2.1 70 (by norm_num) (by norm_num)

/-- C10 (implicit): the emitted event depends only on the bytes at offsets
4, 32 and 34 — two packets of length at least 35 agreeing there produce
identical decoded events; the marker bytes and all other payload bytes are
never inspected by the decoder. -/
theorem C10_decoder_reads_only_three_offsets (p q : List Nat) (ch : String)
    (hp : 35 ≤ p.length) (hq : 35 ≤ q.length)
    (h4 : p.getD 4 0 = q.getD 4 0) (h32 : p.getD 32 0 = q.getD 32 0)
    (h34 : p.getD 34 0 = q.getD 34 0) :
    process_long_packet p ch = process_long_packet q ch := by
  rw [process_long_packet, process_long_packet, if_pos hp, if_pos hq,
    h4, h32, h34]

/-- Witness for C10: the scenario frame and a 35-byte markerless packet
agreeing only at offsets 4, 32, 34 decode identically. -/
theorem C10_witness :
    process_long_packet scenarioFrame "left" =
      process_long_packet
        ([0, 0, 0, 0, 0] ++ List.replicate 27 9 ++ [30, 9, 10]) "left" :=
  C10_decoder_reads_only_three_offsets scenarioFrame
    ([0, 0, 0, 0, 0] ++ List.replicate 27 9 ++ [30, 9, 10]) "left"
    (by decide) (by decide) (by decide) (by decide) (by decide)

/-! Aggregator claims. -/

/-- A bounded deque never exceeds its capacity. -/
theorem dequeAppend_length_le (m : Nat) (xs : List ℚ) (x : ℚ) :
    (dequeAppend m xs x).length ≤ m := by
  unfold dequeAppend
  split_ifs with h
  · rw [List.length_drop]
    omega
  · omega

/-- Below capacity a bounded deque appends; at capacity it evicts the oldest
(leftmost) element (FIFO). -/
theorem dequeAppend_spec (m : Nat) (xs : List ℚ) (x : ℚ) (hm : 1 ≤ m)
    (h : xs.length ≤ m) :
    dequeAppend m xs x =
      (if xs.length < m then xs else xs.drop 1) ++ [x] := by
  have hlen : (xs ++ [x]).length = xs.length + 1 := by
    rw [List.length_append, List.length_cons, List.length_nil]
  unfold dequeAppend
  by_cases hlt : xs.length < m
  · rw [if_neg (by omega), if_pos hlt]
  · have hxm : xs.length = m := by omega
    rw [if_pos (by omega), if_neg hlt, hlen, hxm,
      List.drop_append_of_le_length (by omega)]
    have h1 : m + 1 - m = 1 := by omega
    rw [h1]

/-- C4: a sample with `signalQuality ≠ 0` changes neither moving window,
neither interval accumulator and neither interval history, while the
matched channel's signal-quality label is still updated. -/
theorem C4_poor_quality_display_only (st : AppState) (channel : String)
    (stress attention : ℚ) (q : Nat) (hq : q ≠ 0) :
    (handle_new_data st channel stress attention q).stress_values_left =
        st.stress_values_left ∧
    (handle_new_data st channel stress attention q).stress_values_right =
        st.stress_values_right ∧
    (handle_new_data st channel stress attention q).interval_stress_buffer_left =
        st.interval_stress_buffer_left ∧
    (handle_new_data st channel stress attention q).interval_stress_buffer_right =
        st.interval_stress_buffer_right ∧
    (handle_new_data st channel stress attention q).interval_stress_left =
        st.interval_stress_left ∧
    (handle_new_data st channel stress attention q).interval_stress_right =
        st.interval_stress_right ∧
    (channel = "left" →
      (handle_new_data st channel stress attention q).signal_quality_label_left =
        update_signal_quality q "Left") ∧
    (channel ≠ "left" →
      (handle_new_data st channel stress attention q).signal_quality_label_right =
        update_signal_quality q "Right") := by
  by_cases hc : channel = "left" <;>
    simp [handle_new_data, hc, hq]

/-- Witness for C4: a quality-3 sample on the left channel leaves every
aggregate of the initial state unchanged. -/
theorem C4_witness :
    (handle_new_data init_data_buffers "left" 50 0 3).stress_values_left =
      init_data_buffers.stress_values_left ∧
    (handle_new_data init_data_buffers "left" 50 0 3).interval_stress_buffer_left =
      init_data_buffers.interval_stress_buffer_left :=
  ⟨(C4_poor_quality_display_only init_data_buffers "left" 50 0 3 (by decide)).1,
   (C4_poor_quality_display_only init_data_buffers "left" 50 0 3 (by decide)).2.2.1⟩

/-- C5: when a channel's interval accumulator is non-empty, `update_interval`
appends its arithmetic mean to that channel's interval history (evicting the
oldest entry once 5 are held), clears the accumulator and yields the mean;
when it is empty the channel is untouched and nothing is yielded — so a
second consecutive call is a complete no-op yielding nothing. -/
theorem C5_rollup_contract (st : AppState)
    (hcapl : st.interval_stress_left.length ≤ 5)
    (hcapr : st.interval_stress_right.length ≤ 5) :
    (st.interval_stress_buffer_left ≠ [] →
      (update_interval st).1.interval_stress_left =
        (if st.interval_stress_left.length < 5 then st.interval_stress_left
         else st.interval_stress_left.drop 1) ++
          [st.interval_stress_buffer_left.sum /
            st.interval_stress_buffer_left.length] ∧
      (update_interval st).1.interval_stress_buffer_left = [] ∧
      (update_interval st).2.1 =
        some (st.interval_stress_buffer_left.sum /
          st.interval_stress_buffer_left.length)) ∧
    (st.interval_stress_buffer_left = [] →
      (update_interval st).1.interval_stress_left = st.interval_stress_left ∧
      (update_interval st).1.interval_stress_buffer_left = [] ∧
      (update_interval st).2.1 = none) ∧
    (st.interval_stress_buffer_right ≠ [] →
      (update_interval st).1.interval_stress_right =
        (if st.interval_stress_right.length < 5 then st.interval_stress_right
         else st.interval_stress_right.drop 1) ++
          [st.interval_stress_buffer_right.sum /
            st.interval_stress_buffer_right.length] ∧
      (update_interval st).1.interval_stress_buffer_right = [] ∧
      (update_interval st).2.2 =
        some (st.interval_stress_buffer_right.sum /
          st.interval_stress_buffer_right.length)) ∧
    (st.interval_stress_buffer_right = [] →
      (update_interval st).1.interval_stress_right = st.interval_stress_right ∧
      (update_interval st).1.interval_stress_buffer_right = [] ∧
      (update_interval st).2.2 = none) ∧
    update_interval (update_interval st).1 = ((update_interval st).1, none, none) := by
  have hleft : ∀ h : st.interval_stress_buffer_left ≠ [],
      dequeAppend 5 st.interval_stress_left
          (st.interval_stress_buffer_left.sum /
            st.interval_stress_buffer_left.length) =
        (if st.interval_stress_left.length < 5 then st.interval_stress_left
         else st.interval_stress_left.drop 1) ++
          [st.interval_stress_buffer_left.sum /
            st.interval_stress_buffer_left.length] :=
    fun _ => dequeAppend_spec 5 _ _ (by omega) hcapl
  have hright : ∀ h : st.interval_stress_buffer_right ≠ [],
      dequeAppend 5 st.interval_stress_right
          (st.interval_stress_buffer_right.sum /
            st.interval_stress_buffer_right.length) =
        (if st.interval_stress_right.length < 5 then st.interval_stress_right
         else st.interval_stress_right.drop 1) ++
          [st.interval_stress_buffer_right.sum /
            st.interval_stress_buffer_right.length] :=
    fun _ => dequeAppend_spec 5 _ _ (by omega) hcapr
  by_cases hbl : st.interval_stress_buffer_left = [] <;>
    by_cases hbr : st.interval_stress_buffer_right = [] <;>
      simp [update_interval, hbl, hbr, hleft, hright]

/-- Witness for C5: rolling up an accumulator holding 10 and 20 yields the
mean 15 and empties the accumulator. -/
theorem C5_witness :
    (update_interval
        { init_data_buffers with interval_stress_buffer_left := [10, 20] }).2.1 =
      some (([10, 20] : List ℚ).sum / (([10, 20] : List ℚ).length : ℚ)) :=
  ((C5_rollup_contract
      { init_data_buffers with interval_stress_buffer_left := [10, 20] }
      (by decide) (by decide)).1 (by decide)).2.2

/-- C8: starting from the initial buffers, any sequence of decoded-sample
deliveries and interval rollups keeps every moving window at no more than 15
entries and every interval history at no more than 5; and at capacity the
bounded deques evict their oldest entry (FIFO). -/
theorem C8_bounded_capacity :
    (∀ events : List AppEvent, capInv (runApp init_data_buffers events)) ∧
    (∀ (xs : List ℚ) (x : ℚ), xs.length = 15 →
      dequeAppend 15 xs x = xs.drop 1 ++ [x]) ∧
    (∀ (xs : List ℚ) (x : ℚ), xs.length = 5 →
      dequeAppend 5 xs x = xs.drop 1 ++ [x]) := by
  refine ⟨?_, ?_, ?_⟩
  · have hstep : ∀ (st : AppState) (e : AppEvent), capInv st → capInv (stepApp st e) := by
      intro st e hst
      obtain ⟨h1, h2, h3, h4⟩ := hst
      cases e with
      | data ch s a q =>
        by_cases hc : ch = "left" <;> by_cases hq : q = 0 <;>
          simp [stepApp, handle_new_data, hc, hq, capInv] <;>
          refine ⟨?_, ?_, ?_, ?_⟩ <;>
            first
              | exact dequeAppend_length_le _ _ _
              | omega
      | interval =>
        by_cases hbl : st.interval_stress_buffer_left = [] <;>
          by_cases hbr : st.interval_stress_buffer_right = [] <;>
            simp [stepApp, update_interval, hbl, hbr, capInv] <;>
            refine ⟨?_, ?_, ?_, ?_⟩ <;>
              first
                | exact dequeAppend_length_le _ _ _
                | omega
    have hrun : ∀ (events : List AppEvent) (st : AppState),
        capInv st → capInv (runApp st events) := by
      intro events
      induction events with
      | nil => intro st hst; exact hst
      | cons e es ih => intro st hst; exact ih (stepApp st e) (hstep st e hst)
    intro events
    exact hrun events init_data_buffers (by simp [capInv, init_data_buffers])
  · intro xs x h
    rw [dequeAppend_spec 15 xs x (by omega) (by omega), if_neg (by omega)]
  · intro xs x h
    rw [dequeAppend_spec 5 xs x (by omega) (by omega), if_neg (by omega)]

/-- Witness for C8: a full 15-entry window evicts its oldest entry. -/
theorem C8_witness :
    dequeAppend 15 (List.replicate 15 (0 : ℚ)) 1 =
      (List.replicate 15 (0 : ℚ)).drop 1 ++ [1] :=
  C8_bounded_capacity.2.1 (List.replicate 15 (0 : ℚ)) 1 (by decide)

end StressMonitor
